import Mathlib

/-!
Verification development for the `conch` tool-calling subsystem.

The definitions below are a shallow embedding of the Python sources
`src/conch/mcp.py` and `src/conch/chat.py`:

* Python strings are Lean `String`s; the Python methods used by the code
  (`lower`, `strip`, `split`, slicing, `in`) are re-implemented on the
  character list so that they evaluate inside the kernel.
* JSON values are the inductive `Json` (floats do not occur in the code
  paths under study, so numbers are `Int`; string escaping inside
  `json.dumps` is elided since no claim touches it).
* Python dicts keyed by strings are association lists with
  insert-or-overwrite semantics (`dictSet` / `dictGet`).
* Network, subprocess and user I/O are passed in as explicit data
  (response streams, outcome oracles, confirmation input), and fallible
  Python code is `Except`-valued: `.error` marks a raised exception.
-/

namespace Conch

/-! ### Python string primitives (on the character list, so they reduce) -/

/-- Python `s.lower()`. -/
def pyLower (s : String) : String := ⟨s.data.map Char.toLower⟩

/-- Python `s.strip()` (trim whitespace on both sides). -/
def pyStrip (s : String) : String :=
  ⟨((s.data.dropWhile Char.isWhitespace).reverse.dropWhile Char.isWhitespace).reverse⟩

/-- Python `len(s)`. -/
def pyLen (s : String) : Nat := s.data.length

/-- Python `s[:n]`. -/
def pyTake (s : String) (n : Nat) : String := ⟨s.data.take n⟩

/-- Python `needle in hay` on strings (substring containment). -/
def strContains (hay needle : String) : Bool := decide (needle.data <:+: hay.data)

/-- Python `c in s` for a single character. -/
def strContainsChar (s : String) (c : Char) : Bool := s.data.contains c

/-- The part of `s` before the first occurrence of `c`:
Python `s.split(c)[0]`. -/
def beforeFirst (s : String) (c : Char) : String := ⟨s.data.takeWhile (· ≠ c)⟩

/-- Helper for `pySplitWs`: accumulates the current word (reversed). -/
def splitWsAux : List Char → List Char → List String
  | [], cur => if cur = [] then [] else [⟨cur.reverse⟩]
  | c :: rest, cur =>
    if c.isWhitespace then
      if cur = [] then splitWsAux rest []
      else (⟨cur.reverse⟩ : String) :: splitWsAux rest []
    else splitWsAux rest (c :: cur)

/-- Python `s.split()` — split on whitespace runs, dropping empty pieces. -/
def pySplitWs (s : String) : List String := splitWsAux s.data []

/-- Code-point comparison of characters, as Python compares strings. -/
def charLtB (a b : Char) : Bool := decide (a.toNat < b.toNat)

/-- Lexicographic comparison of character lists (Python string `<`). -/
def listLtB : List Char → List Char → Bool
  | [], [] => false
  | [], _ :: _ => true
  | _ :: _, [] => false
  | a :: as, b :: bs =>
    if charLtB a b then true else if charLtB b a then false else listLtB as bs

/-- Python string `<`. -/
def sLtB (a b : String) : Bool := listLtB a.data b.data

/-- Insert a string into an ascending list, after all entries `≤` it. -/
def insertAsc (x : String) : List String → List String
  | [] => [x]
  | y :: ys => if sLtB x y then x :: y :: ys else y :: insertAsc x ys

/-- Python `sorted(...)` on a list of strings (ascending, stable). -/
def pySorted (l : List String) : List String :=
  l.foldl (fun acc x => insertAsc x acc) []

/-- Python `set(...)` as a list: keep the first occurrence of each
element (set insertion order). -/
def pyDedup (l : List String) : List String :=
  l.foldl (fun acc x => if acc.contains x then acc else acc ++ [x]) []

/-- Python `sorted(set(...))`: deduplicate, then sort ascending. -/
def pySortedSet (l : List String) : List String := pySorted (pyDedup l)

/-! ### JSON values -/

/-- JSON values as produced by `json.loads` (numbers restricted to `Int`,
which covers every code path the claims touch). -/
inductive Json where
  | null
  | bool (b : Bool)
  | num (n : Int)
  | str (s : String)
  | arr (elems : List Json)
  | obj (fields : List (String × Json))

/-- Python truthiness of a parsed JSON value. -/
def Json.truthy : Json → Bool
  | .null => false
  | .bool b => b
  | .num n => decide (n ≠ 0)
  | .str s => decide (s ≠ "")
  | .arr [] => false
  | .arr (_ :: _) => true
  | .obj [] => false
  | .obj (_ :: _) => true

/-- Field lookup in a JSON object's field list (first match). -/
def jfieldGet (fs : List (String × Json)) (k : String) : Option Json :=
  (fs.find? (fun p => p.1 = k)).map (·.2)

/-- Python `d.get(k)` on a parsed JSON value: raises `AttributeError`
(modelled as `.error`) when the value is not a dict. -/
def Json.dictGetAttr : Json → String → Except String (Option Json)
  | .obj fs, k => .ok (jfieldGet fs k)
  | _, _ => .error "AttributeError"

mutual

/-- `json.dumps` for a JSON value (default separators; string escaping
elided since no claim depends on it). -/
def jsonDumps : Json → String
  | .null => "null"
  | .bool true => "true"
  | .bool false => "false"
  | .num n => toString n
  | .str s => "\"" ++ s ++ "\""
  | .arr xs => "[" ++ String.intercalate ", " (jsonDumpsList xs) ++ "]"
  | .obj fs => "\x7b" ++ String.intercalate ", " (jsonDumpsFields fs) ++ "\x7d"

/-- `json.dumps` over the elements of a JSON array. -/
def jsonDumpsList : List Json → List String
  | [] => []
  | x :: xs => jsonDumps x :: jsonDumpsList xs

/-- `json.dumps` over the fields of a JSON object. -/
def jsonDumpsFields : List (String × Json) → List String
  | [] => []
  | (k, v) :: fs => ("\"" ++ k ++ "\": " ++ jsonDumps v) :: jsonDumpsFields fs

end

mutual

/-- Python `repr` of a parsed JSON value (single quotes, `True`/`None`). -/
def pyRepr : Json → String
  | .null => "None"
  | .bool true => "True"
  | .bool false => "False"
  | .num n => toString n
  | .str s => "\x27" ++ s ++ "\x27"
  | .arr xs => "[" ++ String.intercalate ", " (pyReprList xs) ++ "]"
  | .obj fs => "\x7b" ++ String.intercalate ", " (pyReprFields fs) ++ "\x7d"

/-- Python `repr` over the elements of a parsed JSON array. -/
def pyReprList : List Json → List String
  | [] => []
  | x :: xs => pyRepr x :: pyReprList xs

/-- Python `repr` over the fields of a parsed JSON object. -/
def pyReprFields : List (String × Json) → List String
  | [] => []
  | (k, v) :: fs => ("\x27" ++ k ++ "\x27: " ++ pyRepr v) :: pyReprFields fs

end

/-- Python `str` of a parsed JSON value. -/
def pyStr (j : Json) : String :=
  match j with
  | .str s => s
  | _ => pyRepr j

/-! ### Python dicts keyed by strings -/

/-- Python `d[k] = v`: overwrite the entry in place, or append a new one.
(Dicts built by the code never hold a key twice, so replacing the first
occurrence is exact.) -/
def dictSet {α : Type} : List (String × α) → String → α → List (String × α)
  | [], k, v => [(k, v)]
  | p :: rest, k, v => if p.1 = k then (k, v) :: rest else p :: dictSet rest k v

/-- Python `d.get(k)`. -/
def dictGet {α : Type} : List (String × α) → String → Option α
  | [], _ => none
  | p :: rest, k => if p.1 = k then some p.2 else dictGet rest k

/-! ### `mcp.py` — clients, registry, tool execution -/

/-- One entry of a `tools/list` result (a dict with optional keys, read
with `t.get("name", "")` etc. in `collect_tools`). -/
structure ToolSpec where
  name : Option String
  description : Option String
  inputSchema : Option Json

/-- An MCP protocol client as `collect_tools` / `execute_tool` see it:
its configured server name, the outcome of `list_tools()` and the
outcome of `call_tool(name, arguments)` (`.error` = raised exception,
covering transport failures). -/
structure MCPClient where
  name : String
  listing : Except String (List ToolSpec)
  call : String → Json → Except String Json

/-- The fallback parameter schema used in `collect_tools`. -/
def defaultSchema : Json := .obj [("type", .str "object"), ("properties", .obj [])]

/-- One descriptor of the aggregated `openai_tools` list
(`{"type": "function", "function": {...}}`; only the `function` payload
is modelled since the wrapper is constant). -/
structure ToolDef where
  fname : String
  fdescription : String
  fparameters : Json

/-- The descriptor appended to `openai_tools` for a listed tool. -/
def toolDefOf (t : ToolSpec) : ToolDef :=
  ⟨t.name.getD "", t.description.getD "", t.inputSchema.getD defaultSchema⟩

/-- The names a client's successful listing registers, in order. -/
def listedNames (ts : List ToolSpec) : List String := ts.map (fun t => t.name.getD "")

/-- The body of `collect_tools`'s inner loop: append a descriptor in
OpenAI format and set `tool_map[name] = client` (plain dict assignment). -/
def collectStep (client : MCPClient) (acc : List ToolDef × List (String × MCPClient))
    (t : ToolSpec) : List ToolDef × List (String × MCPClient) :=
  (acc.1 ++ [toolDefOf t], dictSet acc.2 (t.name.getD "") client)

/-- One client's contribution in `collect_tools`: a raised `list_tools()`
is logged and the client skipped; otherwise every listed tool is
appended and registered. -/
def collectClient (acc : List ToolDef × List (String × MCPClient))
    (client : MCPClient) : List ToolDef × List (String × MCPClient) :=
  match client.listing with
  | .error _ => acc
  | .ok ts => ts.foldl (collectStep client) acc

/-- `collect_tools(clients)` from `mcp.py`: the aggregated descriptor
list and the routing map `{tool_name: client}`. -/
def collect_tools (clients : List MCPClient) :
    List ToolDef × List (String × MCPClient) :=
  clients.foldl collectClient ([], [])

/-- Python `"\n".join(parts)` where `parts` holds parsed values: raises
`TypeError` unless every element is a string. -/
def strJoinParts (parts : List Json) : Except String String := do
  let strs ← parts.mapM (fun p =>
    match p with
    | .str s => Except.ok s
    | _ => Except.error "TypeError: sequence item is not a str")
  return String.intercalate "\n" strs

/-- Python `block.get("type") == "text"` for a parsed content block. -/
def typeFieldIsText (fs : List (String × Json)) : Bool :=
  match jfieldGet fs "type" with
  | some (.str s) => decide (s = "text")
  | _ => false

/-- The `try`-block body of `execute_tool` after a client was found:
call the tool and flatten its content blocks to text. `.error` is any
raised exception, caught by the caller. -/
def executeToolBody (client : MCPClient) (name : String) (arguments : Json) :
    Except String String := do
  let result ← client.call name arguments
  let contentOpt ← result.dictGetAttr "content"
  let content := contentOpt.getD (.arr [])
  match content with
  | .arr blocks =>
    let parts := blocks.map (fun block =>
      match block with
      | .obj fs =>
        if typeFieldIsText fs then (jfieldGet fs "text").getD (.str "")
        else .str (jsonDumps (.obj fs))
      | _ => .str (pyStr block))
    if parts.isEmpty then return jsonDumps result
    else strJoinParts parts
  | other => return (if other.truthy then pyStr other else jsonDumps result)

/-- `execute_tool(tool_map, name, arguments)` from `mcp.py`: total — an
unknown name and any raised exception both become error strings. -/
def execute_tool (tool_map : List (String × MCPClient)) (name : String)
    (arguments : Json) : String :=
  match dictGet tool_map name with
  | none => "Error: unknown tool \x27" ++ name ++ "\x27"
  | some client =>
    match executeToolBody client name arguments with
    | .ok s => s
    | .error e => "Error executing \x27" ++ name ++ "\x27: " ++ e

/-! ### `mcp.py` — the stdio read loop of `StdioMCPClient._send` -/

/-- One line read from the child's stdout, abstracted at the point after
Python's `line.strip()` / `json.loads(line)`:
`blank` = empty after stripping (skipped), `malformed` = `json.loads`
raised (skipped), `parsed j` = the parsed JSON value. Stream end
(`readline()` returning `b""`) is the end of the list. -/
inductive StdioLine where
  | blank
  | malformed
  | parsed (j : Json)

/-- The structured result `_send` returns when the stream ends. -/
def sendErrorResp : Json :=
  .obj [("error", .obj [("message", .str "MCP server closed connection")])]

/-- Python `resp.get("id") == request_id` for a parsed JSON object:
the field must be a number equal to the integer request id (Python also
equates `True`/`False` with `1`/`0`). -/
def idMatches (fs : List (String × Json)) (request_id : Int) : Bool :=
  match jfieldGet fs "id" with
  | some (.num n) => decide (n = request_id)
  | some (.bool b) => decide ((if b then (1 : Int) else 0) = request_id)
  | _ => false

/-- The `while True` read loop of `StdioMCPClient._send`: skip blank and
unparsable lines, return the first parsed object whose id matches, and
return the structured error when the stream ends. `resp.get` on a
parsed non-object raises `AttributeError` (`.error`). -/
def readResponse (request_id : Int) : List StdioLine → Except String Json
  | [] => .ok sendErrorResp
  | .blank :: rest => readResponse request_id rest
  | .malformed :: rest => readResponse request_id rest
  | .parsed (.obj fs) :: rest =>
    if idMatches fs request_id then .ok (.obj fs)
    else readResponse request_id rest
  | .parsed _ :: _ => .error "AttributeError"

/-- `StdioMCPClient._next_id`: increment the counter and return it. -/
def nextId (st : Nat) : Nat × Nat := (st + 1, st + 1)

/-- `StdioMCPClient._send` with the id counter made explicit: draw the
next id, then run the read loop against the stdout stream. -/
def stdioSend (st : Nat) (stream : List StdioLine) :
    Nat × Int × Except String Json :=
  let (st', request_id) := nextId st
  (st', (request_id : Int), readResponse (request_id : Int) stream)

/-- The ids issued by a sequence of `_send` calls from counter state `st`. -/
def stdioIds (st : Nat) : List (List StdioLine) → List Int
  | [] => []
  | stream :: rest =>
    let (st', rid, _) := stdioSend st stream
    rid :: stdioIds st' rest

/-- A stdout line the read loop discards while waiting for `request_id`:
blank, unparsable, or a parsed object with a different id. -/
def discardableLine (request_id : Int) : StdioLine → Bool
  | .blank => true
  | .malformed => true
  | .parsed (.obj fs) => ! idMatches fs request_id
  | .parsed _ => false

/-! ### `mcp.py` — the HTTP transport's sticky session (`HttpMCPClient._post`) -/

/-- What one HTTP round trip comes back with, as `_post` reads it: the
`Mcp-Session-Id` response header and the parsed body. (Body framing —
direct JSON vs. single-event SSE — is abstracted here; no claim under
study depends on it.) -/
structure HttpResponse where
  sessionHeader : Option String
  result : Json

/-- Truthiness of `self._session_id` (`None` and `""` are falsy). -/
def pyTruthyStrOpt : Option String → Bool
  | none => false
  | some s => decide (s ≠ "")

/-- The per-client state `_post` reads and writes: the constructor-time
extra headers and the sticky `Mcp-Session-Id`. -/
structure HttpClientState where
  baseHeaders : List (String × String)
  sessionId : Option String

/-- The request headers `_post` assembles: the fixed dict literal,
overridden by `self._headers`, then `Mcp-Session-Id` when a session id
is held. -/
def postHeaders (st : HttpClientState) : List (String × String) :=
  let base := [("Content-Type", "application/json"),
               ("Accept", "application/json, text/event-stream"),
               ("User-Agent", "conch/1.0")]
  let merged := st.baseHeaders.foldl (fun m p => dictSet m p.1 p.2) base
  if pyTruthyStrOpt st.sessionId then
    dictSet merged "Mcp-Session-Id" (st.sessionId.getD "")
  else merged

/-- The state update `_post` performs: on a successful response whose
`Mcp-Session-Id` header is truthy, adopt it; an exception (`.error`)
leaves the state unchanged. -/
def postUpdate (st : HttpClientState) (outcome : Except String HttpResponse) :
    HttpClientState :=
  match outcome with
  | .error _ => st
  | .ok r =>
    match r.sessionHeader with
    | some sid => if sid ≠ "" then { st with sessionId := some sid } else st
    | none => st

/-- A sequence of `_post` calls: for each round-trip outcome, record the
request headers sent (built from the state before the call) and update
the state from the response. -/
def httpTrace (st : HttpClientState) :
    List (Except String HttpResponse) → List (List (String × String)) × HttpClientState
  | [] => ([], st)
  | o :: rest =>
    let r := httpTrace (postUpdate st o) rest
    (postHeaders st :: r.1, r.2)

/-! ### `chat.py` — tool grouping, preferences, filtering -/

/-- The persisted preferences (`tool_prefs.json`): disabled group labels
and individually picked tool names. -/
structure Prefs where
  disabled_groups : List String
  picked_tools : List String
deriving DecidableEq

/-- `_tool_group(name, tool_map)` from `chat.py`: built-in pseudo-tools
are their own groups; Composio tools group by lowercased prefix before
the first `_`; otherwise the group is the owning client's name
(`"unknown"` when the map has no entry). -/
def «_tool_group» (name : String) (tool_map : List (String × MCPClient)) : String :=
  if name = "local_shell" ∨ name = "manage_tools" then name
  else
    let client_name :=
      match dictGet tool_map name with
      | some c => c.name
      | none => "unknown"
    if client_name = "composio" ∧ strContainsChar name '_' then
      pyLower (beforeFirst name '_')
    else client_name

/-- One step of `_group_tools`: `groups.setdefault(grp, []).append(name)`. -/
def groupFold (tool_map : List (String × MCPClient))
    (gs : List (String × List String)) (t : ToolDef) : List (String × List String) :=
  let grp := «_tool_group» t.fname tool_map
  if gs.any (fun p => decide (p.1 = grp)) then
    gs.map (fun p => if p.1 = grp then (p.1, p.2 ++ [t.fname]) else p)
  else gs ++ [(grp, [t.fname])]

/-- `_group_tools(all_tools, tool_map)`: group tool names by their
source, preserving first-seen group order (dict `setdefault`). -/
def «_group_tools» (all_tools : List ToolDef) (tool_map : List (String × MCPClient)) :
    List (String × List String) :=
  all_tools.foldl (groupFold tool_map) []

/-- `_apply_filter(all_tools, tool_map, prefs)`: with no disabled groups
return everything; otherwise keep a tool iff its group is not disabled
or its exact name was individually picked. -/
def «_apply_filter» (all_tools : List ToolDef) (tool_map : List (String × MCPClient))
    (prefs : Prefs) : List ToolDef :=
  let disabled := prefs.disabled_groups
  let picked := prefs.picked_tools
  if disabled = [] then all_tools
  else all_tools.filter (fun t =>
    !(disabled.contains («_tool_group» t.fname tool_map)) || picked.contains t.fname)

/-! ### `chat.py` — preference-mutating operations (`_ManageToolsClient`) -/

/-- The preference-mutating actions of the introspection pseudo-tool. -/
inductive PrefOp where
  | enable (group : String)
  | disable (group : String)
  | enableTools (names : List String)

/-- How `manage_tools` actions `enable` / `disable` / `enable_tools`
rewrite the persisted preferences (the group argument arrives already
lowercased by `call_tool`; `enable_tools` names are assumed validated). -/
def applyPrefOp (p : Prefs) : PrefOp → Prefs
  | .enable g => { p with disabled_groups := pySortedSet (p.disabled_groups.filter (· ≠ g)) }
  | .disable g => { p with disabled_groups := pySortedSet (p.disabled_groups ++ [g]) }
  | .enableTools ns => { p with picked_tools := pySortedSet (p.picked_tools ++ ns) }

/-- A sequence of preference-mutating operations, applied in order. -/
def applyPrefOps (p : Prefs) (ops : List PrefOp) : Prefs := ops.foldl applyPrefOp p

/-! ### `chat.py` — the search action of `manage_tools` -/

/-- The score the search action assigns to one tool, given the query
keywords and whether the tool's group is currently disabled:
`(name_hits * 2 + desc_hits) / len(keywords)`, plus `1.0` for a
disabled group. -/
def toolScore (keywords : List String) (name_lower desc_lower : String)
    (groupDisabled : Bool) : ℚ :=
  let name_hits := (keywords.filter (fun kw => strContains name_lower kw)).length
  let desc_hits := (keywords.filter (fun kw => strContains desc_lower kw)).length
  ((2 * name_hits + desc_hits : ℚ) / (keywords.length : ℚ)) +
    (if groupDisabled then 1 else 0)

/-- Insert into a list kept in descending key order, after every entry
whose key is `≥` (the stable placement Python's `list.sort` with
`reverse=True` produces). -/
def insertDesc {α : Type} (key : α → ℚ) (x : α) : List α → List α
  | [] => [x]
  | y :: ys => if key x ≤ key y then y :: insertDesc key x ys else x :: y :: ys

/-- `scored.sort(key=..., reverse=True)`: stable descending sort. -/
def sortDescBy {α : Type} (key : α → ℚ) (l : List α) : List α :=
  l.foldl (fun acc x => insertDesc key x acc) []

/-- One scored match `(tool_name, score, description[:80])`. -/
structure SearchHit where
  tname : String
  score : ℚ
  sdesc : String

/-- The `action == "search"` branch of `_ManageToolsClient.call_tool`:
`none` models the "specify a search query" error; otherwise score every
tool that hits at least one keyword, boost disabled groups, sort by
descending score and keep the first 20. -/
def searchAction (all_tools : List ToolDef) (tool_map : List (String × MCPClient))
    (disabled : List String) (rawQuery : String) : Option (List SearchHit) :=
  let query := pyLower rawQuery
  if query = "" then none
  else
    let keywords := pySplitWs query
    let scored := all_tools.foldl (fun acc t =>
      let name_lower := pyLower t.fname
      let desc_lower := pyLower t.fdescription
      let name_hits := (keywords.filter (fun kw => strContains name_lower kw)).length
      let desc_hits := (keywords.filter (fun kw => strContains desc_lower kw)).length
      if name_hits = 0 ∧ desc_hits = 0 then acc
      else
        let grp := «_tool_group» t.fname tool_map
        acc ++ [⟨t.fname, toolScore keywords name_lower desc_lower (disabled.contains grp),
                pyTake t.fdescription 80⟩]) ([] : List SearchHit)
    some ((sortDescBy SearchHit.score scored).take 20)

/-! ### `chat.py` — startup aggregation ceilings and `/enable` -/

/-- One step of the auto-disable pass of `chat_loop`: skip a group
already in the disabled set; add one with more than 200 members to the
set and report `(group, count)`. -/
def autoDisableFold (acc : List String × List (String × Nat)) (g : String × List String) :
    List String × List (String × Nat) :=
  if acc.1.contains g.1 then acc
  else if g.2.length > 200 then (acc.1 ++ [g.1], acc.2 ++ [(g.1, g.2.length)])
  else acc

/-- The auto-disable pass of `chat_loop` over all groups. -/
def autoDisableStep (groups : List (String × List String)) (disabled : List String) :
    List String × List (String × Nat) :=
  groups.foldl autoDisableFold (disabled, [])

/-- The startup tool preparation in `chat_loop`: auto-disable oversized
groups (persisting the preferences when anything was added), filter,
then silently truncate an active list longer than 300 to its first 300.
Returns `(active tools, persisted prefs, reported auto-disables)`. -/
def startupTools (all_tools : List ToolDef) (tool_map : List (String × MCPClient))
    (prefs : Prefs) : List ToolDef × Prefs × List (String × Nat) :=
  let groups := «_group_tools» all_tools tool_map
  let ad := autoDisableStep groups prefs.disabled_groups
  let prefs' := if ad.2.isEmpty then prefs
                else { prefs with disabled_groups := pySortedSet ad.1 }
  let tools := «_apply_filter» all_tools tool_map prefs'
  let tools' := if tools.length > 300 then tools.take 300 else tools
  (tools', prefs', ad.2)

/-- The `/enable <arg>` slash-command core (`arg` nonempty): lowercase
the argument; `all` clears the disabled set; a currently disabled
target is discarded and the preferences saved (`some`); anything else
prints "already enabled" and saves nothing (`none`). -/
def enableCommand (arg : String) (prefs : Prefs) : Option Prefs :=
  let disabled := prefs.disabled_groups
  let target := pyLower arg
  if target = "all" then some { prefs with disabled_groups := pySortedSet [] }
  else if disabled.contains target then
    some { prefs with disabled_groups := pySortedSet (disabled.filter (· ≠ target)) }
  else none

/-! ### `chat.py` — the local-execution pseudo-tool (`_LocalShellClient`) -/

/-- What `subprocess.run(cmd, shell=True, capture_output=True, ...)`
came back with: a completed process, a `TimeoutExpired`, or any other
raised exception. -/
inductive RunOutcome where
  | completed (stdout stderr : String) (returncode : Int)
  | timedOut
  | raised (msg : String)

/-- The post-confirmation body of `_LocalShellClient.call_tool`:
assemble stdout/stderr, append a nonzero exit code, and truncate output
beyond 15000 with the marker. -/
def localShellProcess (out : RunOutcome) (timeout : Int) : String :=
  match out with
  | .completed stdout stderr rc =>
    let output := ""
    let output := if stdout ≠ "" then output ++ stdout else output
    let output := if stderr ≠ "" then
        (if output ≠ "" then output ++ "\n--- stderr ---\n" ++ stderr else stderr)
      else output
    let output := if output = "" then "(no output, exit code " ++ toString rc ++ ")"
      else if rc ≠ 0 then output ++ "\n(exit code " ++ toString rc ++ ")"
      else output
    if pyLen output > 15000 then pyTake output 15000 ++ "\n... (truncated)" else output
  | .timedOut => "Command timed out after " ++ toString timeout ++ "s"
  | .raised e => "Error: " ++ e

/-- The arguments dict of a `local_shell` call, read with
`arguments.get("command", "")` and `arguments.get("timeout", 60)`. -/
structure LocalShellArgs where
  command : Option String
  timeout : Option Int

/-- The confirmation answer: `input(...).strip().lower()`, with
end-of-input (`EOFError` / `KeyboardInterrupt`, modelled as `none`)
yielding `""`. -/
def confirmAnswer (confirmInput : Option String) : String :=
  match confirmInput with
  | none => ""
  | some s => pyLower (pyStrip s)

/-- `_LocalShellClient.call_tool`, with the interactive confirmation and
the subprocess passed in explicitly. Returns the result text (the
`{"content": [{"type": "text", ...}]}` wrapper is elided) and whether a
subprocess was started. -/
def local_shell_call (args : LocalShellArgs) (confirmInput : Option String)
    (runner : String → Int → RunOutcome) : String × Bool :=
  let cmd := args.command.getD ""
  let timeout := args.timeout.getD 60
  if cmd = "" then ("Error: empty command", false)
  else
    let answer := confirmAnswer confirmInput
    if answer ≠ "y" ∧ answer ≠ "yes" then
      ("User declined to execute the command.", false)
    else (localShellProcess (runner cmd timeout) timeout, true)

/-! ### `chat.py` — provider result appending and the `_chat_turn` loop -/

/-- A tool call as normalized from every provider's response. -/
structure ToolCallMsg where
  id : String
  name : String
  arguments : String

/-- One block of Anthropic-shaped structured message content. -/
inductive Block where
  | text (s : String)
  | toolResult (tool_use_id : String) (content : String)
  | toolUse (id : String) (name : String) (input : Json)

/-- Message content: absent (`None`), plain text, or content blocks. -/
inductive MsgContent where
  | null
  | text (s : String)
  | blocks (bs : List Block)

/-- One conversation message as `_chat_turn` appends them. -/
structure ChatMsg where
  role : String
  content : MsgContent
  tool_call_id : Option String := none
  tool_calls : List ToolCallMsg := []

/-- The normalized provider response (`_raw_openai` / `_raw_anthropic` /
`_raw_ollama` output): text, tool calls (`[]` for none), and for
Anthropic the raw content blocks kept for history. -/
structure LLMResponse where
  content : String
  tool_calls : List ToolCallMsg
  anthropicContent : Option (List Block) := none

/-- One collected tool result `{"id": ..., "content": ...}`. -/
structure ToolResultEntry where
  id : String
  content : String

/-- `_append_results_openai`: one assistant turn (content `None` when
empty, tool calls attached), then one `role="tool"` message per result. -/
def «_append_results_openai» (messages : List ChatMsg) (response : LLMResponse)
    (results : List ToolResultEntry) : List ChatMsg :=
  let assistant : ChatMsg :=
    { role := "assistant",
      content := if response.content = "" then .null else .text response.content,
      tool_calls := response.tool_calls }
  messages ++ [assistant] ++ results.map (fun r =>
    { role := "tool", content := .text r.content, tool_call_id := some r.id })

/-- `_append_results_anthropic`: one assistant turn carrying the raw
content blocks, then a single user turn bundling all results. -/
def «_append_results_anthropic» (messages : List ChatMsg) (response : LLMResponse)
    (results : List ToolResultEntry) : List ChatMsg :=
  let assistant : ChatMsg :=
    { role := "assistant",
      content := .blocks (response.anthropicContent.getD [.text response.content]) }
  let user : ChatMsg :=
    { role := "user",
      content := .blocks (results.map (fun r => .toolResult r.id r.content)) }
  messages ++ [assistant, user]

/-- `MAX_TOOL_ROUNDS` from `chat.py`. -/
def MAX_TOOL_ROUNDS : Nat := 10

/-- The per-result cap in `_chat_turn`: over 8000, truncate to 8000 and
append the marker. -/
def capToolResult (s : String) : String :=
  if pyLen s > 8000 then pyTake s 8000 ++ "\n... (truncated — result too large)" else s

/-- One round's result collection in `_chat_turn`: each requested call
is executed and its text capped. `execute` stands for the dispatch
block (pseudo-tool or `mcp_mod.execute_tool` with leniently parsed
arguments) and absorbs the external world's behavior. -/
def roundResults (execute : ToolCallMsg → String) (tool_calls : List ToolCallMsg) :
    List ToolResultEntry :=
  tool_calls.map (fun tc => ⟨tc.id, capToolResult (execute tc)⟩)

/-- The tail of one tool round in `_chat_turn`: collect and cap the
results, then append them in the shape the configured provider needs
(`anthropic` bundles, every other provider gets per-result messages). -/
def nextRoundMessages (raw_fn : List ChatMsg → LLMResponse)
    (execute : ToolCallMsg → String) (provider : String)
    (messages : List ChatMsg) : List ChatMsg :=
  let response := raw_fn messages
  let results := roundResults execute response.tool_calls
  if provider = "anthropic" then «_append_results_anthropic» messages response results
  else «_append_results_openai» messages response results

/-- The round loop of `_chat_turn` (`for _ in range(MAX_TOOL_ROUNDS)`),
with the fuel made explicit. Returns the reply, the final message list
and the number of provider calls made. The `chat_state` tool-refresh
handshake only swaps which tool list is advertised to the provider and
is folded into `raw_fn`. -/
def chatTurnGo (raw_fn : List ChatMsg → LLMResponse) (execute : ToolCallMsg → String)
    (provider : String) : Nat → List ChatMsg → String × List ChatMsg × Nat
  | 0, messages => ("[max tool call rounds reached]", messages, 0)
  | n + 1, messages =>
    let response := raw_fn messages
    match response.tool_calls with
    | [] => (response.content, messages, 1)
    | _ :: _ =>
      let r := chatTurnGo raw_fn execute provider n
        (nextRoundMessages raw_fn execute provider messages)
      (r.1, r.2.1, r.2.2 + 1)

/-- `_chat_turn(...)`: run the round loop with the configured ceiling. -/
def «_chat_turn» (raw_fn : List ChatMsg → LLMResponse) (execute : ToolCallMsg → String)
    (provider : String) (messages : List ChatMsg) : String × List ChatMsg × Nat :=
  chatTurnGo raw_fn execute provider MAX_TOOL_ROUNDS messages

/-! ### Observation helpers for the theorems -/

/-- The texts carried by `role="tool"` messages (the OpenAI-format
per-result messages), in order. -/
def toolMsgContents (msgs : List ChatMsg) : List String :=
  msgs.foldr (fun m acc =>
    (if m.role = "tool" then
       match m.content with
       | .text s => [s]
       | _ => []
     else []) ++ acc) []

/-- The texts carried by `tool_result` blocks inside user-role messages
(the Anthropic-format result bundles), in order. -/
def userToolResultContents (msgs : List ChatMsg) : List String :=
  msgs.foldr (fun m acc =>
    (if m.role = "user" then
       match m.content with
       | .blocks bs => bs.foldr (fun b bacc =>
           (match b with
            | .toolResult _ c => [c]
            | _ => []) ++ bacc) []
       | _ => []
     else []) ++ acc) []

/-! ### Concrete inputs used by counterexamples and witnesses -/

/-- A call behavior that never raises (only routing is at stake). -/
def dummyCall : String → Json → Except String Json := fun _ _ => .ok .null

/-- First-registered client listing a tool named `t`. -/
def clientFirst : MCPClient := ⟨"alpha", .ok [⟨some "t", some "first", none⟩], dummyCall⟩

/-- Later-registered client listing the same tool name `t`. -/
def clientSecond : MCPClient := ⟨"beta", .ok [⟨some "t", some "second", none⟩], dummyCall⟩

/-- A client whose every call raises. -/
def clientRaising : MCPClient := ⟨"gamma", .ok [], fun _ _ => .error "boom"⟩

/-- An 8001-character string, one over the result cap. -/
def bigString : String := ⟨List.replicate 8001 'a'⟩

/-- A stdout stream whose first line parses to non-object JSON (`42`)
and whose second line is the awaited response for id 1. -/
def cexStdioStream : List StdioLine :=
  [.parsed (.num 42),
   .parsed (.obj [("jsonrpc", .str "2.0"), ("id", .num 1), ("result", .obj [])])]

/-- A client named `A` (an uppercase configured server name). -/
def clientUpper : MCPClient := ⟨"A", .ok [], dummyCall⟩

/-- 201 distinct short tool names. -/
def cexToolNames : List String :=
  (List.range 201).map (fun i =>
    ⟨[Char.ofNat (97 + i / 26), Char.ofNat (97 + i % 26)]⟩)

/-- 201 tools, all owned by the client named `A`. -/
def cexAllTools : List ToolDef := cexToolNames.map (fun n => ⟨n, "", defaultSchema⟩)

/-- The routing map for the 201 tools (mirroring `collect_tools`). -/
def cexToolMap : List (String × MCPClient) := cexToolNames.map (fun n => (n, clientUpper))

/-- 302 tool descriptors in two 151-member groups (the descriptor list
may repeat names, which `collect_tools` allows). -/
def cexManyTools : List ToolDef :=
  List.replicate 151 ⟨"x", "", defaultSchema⟩ ++ List.replicate 151 ⟨"y", "", defaultSchema⟩

/-- The owner map for the 302 descriptors: two clients. -/
def cexManyMap : List (String × MCPClient) :=
  [("x", ⟨"c1", .ok [], dummyCall⟩), ("y", ⟨"c2", .ok [], dummyCall⟩)]

/-- A provider behavior that requests a tool call in every round. -/
def alwaysToolResponse : List ChatMsg → LLMResponse :=
  fun _ => { content := "", tool_calls := [⟨"call_1", "f", ""⟩], anthropicContent := none }

/-! ## Helper lemmas -/

theorem dictGet_dictSet {α : Type} (m : List (String × α)) (k k' : String) (v : α) :
    dictGet (dictSet m k v) k' = if k' = k then some v else dictGet m k' := by
  induction m with
  | nil =>
    by_cases hk : k' = k
    · simp [dictSet, dictGet, hk]
    · have hk2 : ¬ (k = k') := fun h => hk h.symm
      simp [dictSet, dictGet, hk, hk2]
  | cons p rest ih =>
    by_cases hp : p.1 = k
    · by_cases hk : k' = k
      · simp [dictSet, dictGet, hp, hk]
      · have hpk' : ¬ (p.1 = k') := fun h => hk (h.symm.trans hp)
        have hk2 : ¬ (k = k') := fun h => hk h.symm
        simp [dictSet, dictGet, hp, hk, hk2, hpk']
    · by_cases hpk' : p.1 = k'
      · have hk : ¬ (k' = k) := fun h => hp (hpk'.trans h)
        simp [dictSet, dictGet, hp, hpk', hk]
      · simp [dictSet, dictGet, hp, hpk', ih]

theorem collect_foldl_fst (c : MCPClient) (ts : List ToolSpec)
    (acc : List ToolDef × List (String × MCPClient)) :
    (ts.foldl (collectStep c) acc).1 = acc.1 ++ ts.map toolDefOf := by
  induction ts generalizing acc with
  | nil => simp
  | cons t rest ih => simp [collectStep, ih]

theorem collect_foldl_get (c : MCPClient) (ts : List ToolSpec)
    (acc : List ToolDef × List (String × MCPClient)) (name : String) :
    dictGet (ts.foldl (collectStep c) acc).2 name =
      if name ∈ listedNames ts then some c else dictGet acc.2 name := by
  induction ts generalizing acc with
  | nil => simp [listedNames]
  | cons t rest ih =>
    have hcons : listedNames (t :: rest) = (t.name.getD "") :: listedNames rest := by
      simp [listedNames]
    rw [List.foldl_cons, ih]
    by_cases hr : name ∈ listedNames rest
    · have hmem : name ∈ listedNames (t :: rest) := by
        rw [hcons]; exact List.mem_cons_of_mem _ hr
      simp [hr, hmem]
    · rw [if_neg hr]
      have hstep : (collectStep c acc t).2 = dictSet acc.2 (t.name.getD "") c := rfl
      rw [hstep, dictGet_dictSet]
      by_cases he : name = t.name.getD ""
      · have hmem : name ∈ listedNames (t :: rest) := by
          rw [hcons, he]; exact List.mem_cons_self _ _
        rw [if_pos he, if_pos hmem]
      · have hmem : ¬ name ∈ listedNames (t :: rest) := by
          rw [hcons]
          intro hm
          rcases List.mem_cons.mp hm with h | h
          · exact he h
          · exact hr h
        simp [he, hmem]

/-! ## Claim theorems -/

/-- C1, counterexample to the claim as stated: with two clients each
listing a tool named `t`, `collect_tools` keeps both descriptors (the
name is not unique in the descriptor list) and routes `t` to the
second-registered client `beta`, not the first-registered `alpha`. -/
theorem collect_tools_first_wins_counterexample :
    ((collect_tools [clientFirst, clientSecond]).1.map ToolDef.fname = ["t", "t"]) ∧
    ¬ ((collect_tools [clientFirst, clientSecond]).1.map ToolDef.fname).Nodup ∧
    clientFirst.name = "alpha" ∧ clientSecond.name = "beta" ∧
    (dictGet (collect_tools [clientFirst, clientSecond]).2 "t").map MCPClient.name =
      some "beta" ∧
    ¬ ((dictGet (collect_tools [clientFirst, clientSecond]).2 "t").map MCPClient.name =
      some "alpha") := by
  refine ⟨by decide, by decide, rfl, rfl, by decide, by decide⟩

/-- C1 (amended): in the registry built by `collect_tools`, the
descriptor list keeps every listing (names repeat on collisions), and
the routing map resolves a name to the LAST client whose listing
succeeded and contains it; only when no later client lists the name
does an earlier registration remain the owner. -/
theorem collect_tools_registers_last_client (cs : List MCPClient) (c : MCPClient)
    (name : String) :
    (collect_tools (cs ++ [c])).1 =
      (collect_tools cs).1 ++
        (match c.listing with
         | .ok ts => ts.map toolDefOf
         | .error _ => []) ∧
    dictGet (collect_tools (cs ++ [c])).2 name =
      (match c.listing with
       | .ok ts =>
         if name ∈ listedNames ts then some c else dictGet (collect_tools cs).2 name
       | .error _ => dictGet (collect_tools cs).2 name) := by
  have h : collect_tools (cs ++ [c]) = collectClient (collect_tools cs) c := by
    unfold collect_tools
    rw [List.foldl_append]
    rfl
  rw [h]
  unfold collectClient
  cases hls : c.listing with
  | error e => simp
  | ok ts => exact ⟨collect_foldl_fst c ts _, collect_foldl_get c ts _ name⟩

theorem foldr_extract_append {β : Type} (g : ChatMsg → List β) (a b : List ChatMsg) :
    (a ++ b).foldr (fun m acc => g m ++ acc) [] =
      a.foldr (fun m acc => g m ++ acc) [] ++ b.foldr (fun m acc => g m ++ acc) [] := by
  induction a with
  | nil => simp
  | cons m rest ih => simp [ih]

theorem toolMsgContents_append (a b : List ChatMsg) :
    toolMsgContents (a ++ b) = toolMsgContents a ++ toolMsgContents b :=
  foldr_extract_append _ a b

theorem userToolResultContents_append (a b : List ChatMsg) :
    userToolResultContents (a ++ b) =
      userToolResultContents a ++ userToolResultContents b :=
  foldr_extract_append _ a b

theorem toolMsgContents_of_results (results : List ToolResultEntry) :
    toolMsgContents (results.map (fun r =>
      { role := "tool", content := .text r.content, tool_call_id := some r.id })) =
    results.map ToolResultEntry.content := by
  induction results with
  | nil => rfl
  | cons r rest ih => simp [toolMsgContents] at ih ⊢; exact ih

theorem blockContents_of_results (results : List ToolResultEntry) :
    (List.foldr (fun b bacc =>
      (match b with
       | Block.toolResult _ c => [c]
       | _ => []) ++ bacc) []
      (results.map (fun r => Block.toolResult r.id r.content))) =
    results.map ToolResultEntry.content := by
  induction results with
  | nil => rfl
  | cons r rest ih => simp [ih]

/-- C2: every textual tool result collected in a round of `_chat_turn`
is capped at 8000: a longer text becomes exactly its first 8000
characters plus the truncation marker, a text at or under 8000 passes
unchanged, and the capped text is what both provider append formats
record in the conversation history. -/
theorem chat_turn_result_truncation :
    (∀ s, pyLen s > 8000 →
        capToolResult s = pyTake s 8000 ++ "\n... (truncated — result too large)" ∧
        pyLen (pyTake s 8000) = 8000) ∧
    (∀ s, pyLen s ≤ 8000 → capToolResult s = s) ∧
    (∀ (execute : ToolCallMsg → String) (tcs : List ToolCallMsg),
        (roundResults execute tcs).map ToolResultEntry.content =
          tcs.map (fun tc => capToolResult (execute tc))) ∧
    (∀ (msgs : List ChatMsg) (resp : LLMResponse) (execute : ToolCallMsg → String)
        (tcs : List ToolCallMsg),
        toolMsgContents («_append_results_openai» msgs resp (roundResults execute tcs)) =
          toolMsgContents msgs ++ tcs.map (fun tc => capToolResult (execute tc)) ∧
        userToolResultContents
            («_append_results_anthropic» msgs resp (roundResults execute tcs)) =
          userToolResultContents msgs ++ tcs.map (fun tc => capToolResult (execute tc))) := by
  refine ⟨?_, ?_, ?_, ?_⟩
  · intro s h
    constructor
    · simp [capToolResult, h]
    · simp [pyLen, pyTake] at h ⊢
      omega
  · intro s h
    have : ¬ pyLen s > 8000 := by omega
    simp [capToolResult, this]
  · intro execute tcs
    simp [roundResults]
  · intro msgs resp execute tcs
    constructor
    · rw [«_append_results_openai», toolMsgContents_append, toolMsgContents_append,
        toolMsgContents_of_results]
      have hassist : ∀ a : ChatMsg, a.role = "assistant" → toolMsgContents [a] = [] := by
        intro a ha
        simp [toolMsgContents, ha]
      rw [hassist _ rfl]
      simp [roundResults]
    · rw [«_append_results_anthropic», userToolResultContents_append]
      have happ : ∀ a u : ChatMsg, a.role = "assistant" → u.role = "user" →
          u.content = .blocks ((roundResults execute tcs).map (fun r =>
            Block.toolResult r.id r.content)) →
          userToolResultContents [a, u] =
            (roundResults execute tcs).map ToolResultEntry.content := by
        intro a u ha hu hc
        simp [userToolResultContents, ha, hu, hc, blockContents_of_results]
      rw [happ _ _ rfl rfl rfl]
      simp [roundResults]

/-- C2 witness: a concrete 8001-character result is truncated to its
first 8000 characters plus the marker, and a short result passes
through unchanged. -/
theorem chat_turn_result_truncation_witness :
    pyLen bigString > 8000 ∧
    capToolResult bigString = pyTake bigString 8000 ++ "\n... (truncated — result too large)" ∧
    pyLen (pyTake bigString 8000) = 8000 ∧
    pyLen "ok" ≤ 8000 ∧ capToolResult "ok" = "ok" := by
  have hdata : bigString.data = List.replicate 8001 'a' := rfl
  have h : pyLen bigString > 8000 := by
    unfold pyLen
    rw [hdata]
    simp only [List.length_replicate]
    decide
  have hsmall : pyLen "ok" ≤ 8000 := by decide
  exact ⟨h, (chat_turn_result_truncation.1 bigString h).1,
    (chat_turn_result_truncation.1 bigString h).2,
    hsmall, chat_turn_result_truncation.2.1 "ok" hsmall⟩

theorem chatTurnGo_succ_of_calls (raw_fn : List ChatMsg → LLMResponse)
    (execute : ToolCallMsg → String) (provider : String) (k : Nat)
    (messages : List ChatMsg) (tc : ToolCallMsg) (rest : List ToolCallMsg)
    (h : (raw_fn messages).tool_calls = tc :: rest) :
    chatTurnGo raw_fn execute provider (k + 1) messages =
      ((chatTurnGo raw_fn execute provider k
          (nextRoundMessages raw_fn execute provider messages)).1,
       (chatTurnGo raw_fn execute provider k
          (nextRoundMessages raw_fn execute provider messages)).2.1,
       (chatTurnGo raw_fn execute provider k
          (nextRoundMessages raw_fn execute provider messages)).2.2 + 1) := by
  rw [chatTurnGo]
  simp only [h]

theorem chatTurnGo_succ_of_no_calls (raw_fn : List ChatMsg → LLMResponse)
    (execute : ToolCallMsg → String) (provider : String) (k : Nat)
    (messages : List ChatMsg) (h : (raw_fn messages).tool_calls = []) :
    chatTurnGo raw_fn execute provider (k + 1) messages =
      ((raw_fn messages).content, messages, 1) := by
  rw [chatTurnGo]
  simp only [h]

theorem chatTurnGo_count_le (raw_fn : List ChatMsg → LLMResponse)
    (execute : ToolCallMsg → String) (provider : String) :
    ∀ (n : Nat) (messages : List ChatMsg),
      (chatTurnGo raw_fn execute provider n messages).2.2 ≤ n := by
  intro n
  induction n with
  | zero => intro messages; simp [chatTurnGo]
  | succ k ih =>
    intro messages
    cases h : (raw_fn messages).tool_calls with
    | nil =>
      rw [chatTurnGo_succ_of_no_calls raw_fn execute provider k messages h]
      simp
    | cons tc rest =>
      rw [chatTurnGo_succ_of_calls raw_fn execute provider k messages tc rest h]
      have := ih (nextRoundMessages raw_fn execute provider messages)
      show (chatTurnGo raw_fn execute provider k
        (nextRoundMessages raw_fn execute provider messages)).2.2 + 1 ≤ k + 1
      omega

theorem chatTurnGo_all_tools (raw_fn : List ChatMsg → LLMResponse)
    (execute : ToolCallMsg → String) (provider : String)
    (halways : ∀ ms, (raw_fn ms).tool_calls ≠ []) :
    ∀ (n : Nat) (messages : List ChatMsg),
      (chatTurnGo raw_fn execute provider n messages).1 = "[max tool call rounds reached]" ∧
      (chatTurnGo raw_fn execute provider n messages).2.2 = n := by
  intro n
  induction n with
  | zero => intro messages; simp [chatTurnGo]
  | succ k ih =>
    intro messages
    cases h : (raw_fn messages).tool_calls with
    | nil => exact absurd h (halways messages)
    | cons tc rest =>
      rw [chatTurnGo_succ_of_calls raw_fn execute provider k messages tc rest h]
      have := ih (nextRoundMessages raw_fn execute provider messages)
      constructor
      · exact this.1
      · show (chatTurnGo raw_fn execute provider k
          (nextRoundMessages raw_fn execute provider messages)).2.2 + 1 = k + 1
        omega

/-- C3: when the provider's response carries tool calls in every round,
`_chat_turn` makes exactly `MAX_TOOL_ROUNDS = 10` provider calls and
returns the fixed sentinel string; and no run of the loop ever makes
more than 10 provider calls. -/
theorem chat_turn_round_ceiling :
    (∀ (raw_fn : List ChatMsg → LLMResponse) (execute : ToolCallMsg → String)
        (provider : String) (messages : List ChatMsg),
        (∀ ms, (raw_fn ms).tool_calls ≠ []) →
        («_chat_turn» raw_fn execute provider messages).1 = "[max tool call rounds reached]" ∧
        («_chat_turn» raw_fn execute provider messages).2.2 = 10) ∧
    (∀ (raw_fn : List ChatMsg → LLMResponse) (execute : ToolCallMsg → String)
        (provider : String) (messages : List ChatMsg),
        («_chat_turn» raw_fn execute provider messages).2.2 ≤ 10) ∧
    MAX_TOOL_ROUNDS = 10 := by
  refine ⟨?_, ?_, rfl⟩
  · intro raw_fn execute provider messages halways
    exact chatTurnGo_all_tools raw_fn execute provider halways MAX_TOOL_ROUNDS messages
  · intro raw_fn execute provider messages
    exact chatTurnGo_count_le raw_fn execute provider MAX_TOOL_ROUNDS messages

theorem mem_insertAsc (x y : String) (l : List String) :
    x ∈ insertAsc y l ↔ x = y ∨ x ∈ l := by
  induction l with
  | nil => simp [insertAsc]
  | cons z zs ih =>
    by_cases h : sLtB y z
    · simp [insertAsc, h]
    · simp only [insertAsc, h, Bool.false_eq_true, if_neg, not_false_iff,
        List.mem_cons, ih]
      tauto

theorem mem_pySorted (x : String) (l : List String) :
    x ∈ pySorted l ↔ x ∈ l := by
  have haux : ∀ (l : List String) (acc : List String),
      x ∈ l.foldl (fun acc y => insertAsc y acc) acc ↔ x ∈ acc ∨ x ∈ l := by
    intro l
    induction l with
    | nil => intro acc; simp
    | cons z zs ih =>
      intro acc
      rw [List.foldl_cons, ih, mem_insertAsc]
      simp
      tauto
  rw [pySorted, haux]
  simp

theorem mem_pyDedup (x : String) (l : List String) :
    x ∈ pyDedup l ↔ x ∈ l := by
  have haux : ∀ (l : List String) (acc : List String),
      x ∈ l.foldl (fun acc y => if acc.contains y then acc else acc ++ [y]) acc ↔
        x ∈ acc ∨ x ∈ l := by
    intro l
    induction l with
    | nil => intro acc; simp
    | cons z zs ih =>
      intro acc
      rw [List.foldl_cons]
      by_cases h : acc.contains z = true
      · have hz : z ∈ acc := by simpa using h
        rw [if_pos h, ih]
        simp only [List.mem_cons]
        constructor
        · rintro (hx | hx)
          · exact Or.inl hx
          · exact Or.inr (Or.inr hx)
        · rintro (hx | hx | hx)
          · exact Or.inl hx
          · exact Or.inl (hx ▸ hz)
          · exact Or.inr hx
      · rw [if_neg h, ih]
        simp only [List.mem_append, List.mem_singleton, List.mem_cons]
        tauto
  rw [pyDedup, haux]
  simp

/-- C3 witness: a provider behavior that always requests one tool call
makes the loop stop at the sentinel after exactly 10 rounds. -/
theorem chat_turn_round_ceiling_witness :
    (∀ ms, (alwaysToolResponse ms).tool_calls ≠ []) ∧
    («_chat_turn» alwaysToolResponse (fun _ => "ok") "openai" []).1 =
      "[max tool call rounds reached]" ∧
    («_chat_turn» alwaysToolResponse (fun _ => "ok") "openai" []).2.2 = 10 := by
  have halways : ∀ ms, (alwaysToolResponse ms).tool_calls ≠ [] := by
    intro ms
    simp [alwaysToolResponse]
  exact ⟨halways,
    (chat_turn_round_ceiling.1 alwaysToolResponse (fun _ => "ok") "openai" [] halways).1,
    (chat_turn_round_ceiling.1 alwaysToolResponse (fun _ => "ok") "openai" [] halways).2⟩

/-- C6: the active tool set is a pure function of the tool list, the
owner map and the final preferences — a tool is kept iff its derived
group is not disabled or its exact name was picked — so any operation
sequences converging to the same preferences yield the same set. -/
theorem apply_filter_characterization :
    (∀ (all_tools : List ToolDef) (tool_map : List (String × MCPClient)) (prefs : Prefs)
        (t : ToolDef),
        t ∈ «_apply_filter» all_tools tool_map prefs ↔
          t ∈ all_tools ∧
            («_tool_group» t.fname tool_map ∉ prefs.disabled_groups ∨
              t.fname ∈ prefs.picked_tools)) ∧
    (∀ (all_tools : List ToolDef) (tool_map : List (String × MCPClient)) (p0 : Prefs)
        (ops1 ops2 : List PrefOp),
        applyPrefOps p0 ops1 = applyPrefOps p0 ops2 →
        «_apply_filter» all_tools tool_map (applyPrefOps p0 ops1) =
          «_apply_filter» all_tools tool_map (applyPrefOps p0 ops2)) := by
  constructor
  · intro all_tools tool_map prefs t
    by_cases hd : prefs.disabled_groups = []
    · simp [«_apply_filter», hd]
    · simp [«_apply_filter», hd, List.mem_filter]
  · intro all_tools tool_map p0 ops1 ops2 h
    rw [h]

/-- C6 witness: disabling then re-enabling a group lands on the same
preferences as doing nothing, and the filter output coincides. -/
theorem apply_filter_characterization_witness :
    applyPrefOps ⟨[], []⟩ [.disable "g", .enable "g"] = applyPrefOps ⟨[], []⟩ [] ∧
    «_apply_filter» [] [] (applyPrefOps ⟨[], []⟩ [.disable "g", .enable "g"]) =
      «_apply_filter» [] [] (applyPrefOps ⟨[], []⟩ []) := by
  have h : applyPrefOps ⟨[], []⟩ [.disable "g", .enable "g"] =
      applyPrefOps ⟨[], []⟩ [] := by decide
  exact ⟨h, apply_filter_characterization.2 [] [] ⟨[], []⟩ _ _ h⟩

/-- C10: `execute_tool` is total at its interface — a name absent from
the map yields the fixed unknown-tool error string without any client
call, and a raised client call becomes the "Error executing" string. -/
theorem execute_tool_total_error_handling :
    (∀ (tool_map : List (String × MCPClient)) (name : String) (arguments : Json),
        dictGet tool_map name = none →
        execute_tool tool_map name arguments = "Error: unknown tool \x27" ++ name ++ "\x27") ∧
    (∀ (tool_map : List (String × MCPClient)) (name : String) (arguments : Json)
        (client : MCPClient) (e : String),
        dictGet tool_map name = some client →
        client.call name arguments = .error e →
        execute_tool tool_map name arguments =
          "Error executing \x27" ++ name ++ "\x27: " ++ e) := by
  constructor
  · intro m n a h
    simp [execute_tool, h]
  · intro m n a c e h hc
    simp only [execute_tool, h, executeToolBody, hc]
    rfl

/-- C10 witness: an unmapped name and a raising client call, each at a
concrete input. -/
theorem execute_tool_total_error_handling_witness :
    dictGet ([] : List (String × MCPClient)) "ghost" = none ∧
    execute_tool [] "ghost" .null = "Error: unknown tool \x27ghost\x27" ∧
    dictGet [("g", clientRaising)] "g" = some clientRaising ∧
    clientRaising.call "g" .null = .error "boom" ∧
    execute_tool [("g", clientRaising)] "g" .null = "Error executing \x27g\x27: boom" := by
  have h1 : dictGet ([] : List (String × MCPClient)) "ghost" = none := rfl
  have h2 : dictGet [("g", clientRaising)] "g" = some clientRaising := rfl
  have h3 : clientRaising.call "g" .null = .error "boom" := rfl
  exact ⟨h1, execute_tool_total_error_handling.1 [] "ghost" .null h1, h2, h3,
    execute_tool_total_error_handling.2 [("g", clientRaising)] "g" .null clientRaising
      "boom" h2 h3⟩

/-- C8: the local-execution pseudo-tool starts a process only after an
explicit affirmative confirmation — whenever a process starts the
normalized answer was `y`/`yes` on a nonempty command; any other answer
(including `n`, empty input, and end-of-input) starts nothing and, for
a nonempty command, returns the decline text; on `y`/`yes` the command
runs with the given timeout bound. -/
theorem local_shell_confirmation_gate :
    ∀ (args : LocalShellArgs) (confirmInput : Option String)
      (runner : String → Int → RunOutcome),
    ((local_shell_call args confirmInput runner).2 = true →
        args.command.getD "" ≠ "" ∧
          (confirmAnswer confirmInput = "y" ∨ confirmAnswer confirmInput = "yes")) ∧
    ((confirmAnswer confirmInput ≠ "y" ∧ confirmAnswer confirmInput ≠ "yes") →
        (local_shell_call args confirmInput runner).2 = false ∧
          (args.command.getD "" ≠ "" →
            (local_shell_call args confirmInput runner).1 =
              "User declined to execute the command.")) ∧
    (args.command.getD "" ≠ "" →
        (confirmAnswer confirmInput = "y" ∨ confirmAnswer confirmInput = "yes") →
        local_shell_call args confirmInput runner =
          (localShellProcess (runner (args.command.getD "") (args.timeout.getD 60))
            (args.timeout.getD 60), true)) := by
  intro args confirmInput runner
  by_cases hcmd : args.command.getD "" = ""
  · refine ⟨?_, ?_, ?_⟩
    · intro hstart
      exact absurd hstart (by simp [local_shell_call, hcmd])
    · intro hno
      exact ⟨by simp [local_shell_call, hcmd], fun hc => absurd hcmd hc⟩
    · intro hc
      exact absurd hcmd hc
  · by_cases hyes : confirmAnswer confirmInput = "y" ∨ confirmAnswer confirmInput = "yes"
    · refine ⟨fun _ => ⟨hcmd, hyes⟩, ?_, ?_⟩
      · intro hno
        rcases hyes with hy | hy
        · exact absurd hy hno.1
        · exact absurd hy hno.2
      · intro _ _
        have hny : ¬ (confirmAnswer confirmInput ≠ "y" ∧ confirmAnswer confirmInput ≠ "yes") := by
          tauto
        simp [local_shell_call, hcmd, hny]
    · have hno : confirmAnswer confirmInput ≠ "y" ∧ confirmAnswer confirmInput ≠ "yes" := by
        tauto
      refine ⟨?_, ?_, ?_⟩
      · intro hstart
        exact absurd hstart (by simp [local_shell_call, hcmd, hno])
      · intro _
        exact ⟨by simp [local_shell_call, hcmd, hno],
          fun _ => by simp [local_shell_call, hcmd, hno]⟩
      · intro _ hy
        exact absurd hy hyes

/-- C8 witness: declines `"n"`, `" N "`, empty and end-of-input start
nothing; `" YES "` runs the command with the passed timeout. -/
theorem local_shell_confirmation_gate_witness :
    (confirmAnswer (some "n") ≠ "y" ∧ confirmAnswer (some "n") ≠ "yes") ∧
    (local_shell_call ⟨some "rm -rf /tmp/x", some 5⟩ (some "n")
      (fun _ _ => .completed "out" "" 0)).2 = false ∧
    (confirmAnswer none ≠ "y" ∧ confirmAnswer none ≠ "yes") ∧
    (local_shell_call ⟨some "rm -rf /tmp/x", some 5⟩ none
      (fun _ _ => .completed "out" "" 0)).2 = false ∧
    ("rm -rf /tmp/x" ≠ "") ∧
    (confirmAnswer (some " YES ") = "y" ∨ confirmAnswer (some " YES ") = "yes") ∧
    local_shell_call ⟨some "rm -rf /tmp/x", some 5⟩ (some " YES ")
        (fun _ _ => .completed "out" "" 0) =
      (localShellProcess (.completed "out" "" 0) 5, true) := by
  have hn : confirmAnswer (some "n") ≠ "y" ∧ confirmAnswer (some "n") ≠ "yes" := by decide
  have heof : confirmAnswer none ≠ "y" ∧ confirmAnswer none ≠ "yes" := by decide
  have hcmd : (some "rm -rf /tmp/x" : Option String).getD "" ≠ "" := by decide
  have hyes : confirmAnswer (some " YES ") = "y" ∨ confirmAnswer (some " YES ") = "yes" := by
    decide
  refine ⟨hn, ?_, heof, ?_, by decide, hyes, ?_⟩
  · exact ((local_shell_confirmation_gate ⟨some "rm -rf /tmp/x", some 5⟩ (some "n")
      (fun _ _ => .completed "out" "" 0)).2.1 hn).1
  · exact ((local_shell_confirmation_gate ⟨some "rm -rf /tmp/x", some 5⟩ none
      (fun _ _ => .completed "out" "" 0)).2.1 heof).1
  · exact (local_shell_confirmation_gate ⟨some "rm -rf /tmp/x", some 5⟩ (some " YES ")
      (fun _ _ => .completed "out" "" 0)).2.2 hcmd hyes

theorem stdioIds_cons (st : Nat) (s : List StdioLine) (rest : List (List StdioLine)) :
    stdioIds st (s :: rest) = ((st + 1 : Nat) : Int) :: stdioIds (st + 1) rest := rfl

theorem stdioIds_gt (streams : List (List StdioLine)) :
    ∀ (st : Nat) (i : Int), i ∈ stdioIds st streams → (st : Int) < i := by
  induction streams with
  | nil => intro st i h; simp [stdioIds] at h
  | cons s rest ih =>
    intro st i h
    rw [stdioIds_cons] at h
    rcases List.mem_cons.mp h with h | h
    · subst h
      exact_mod_cast Nat.lt_succ_self st
    · have := ih (st + 1) i h
      have hlt : (st : Int) < ((st + 1 : Nat) : Int) := by exact_mod_cast Nat.lt_succ_self st
      exact lt_trans hlt this

/-- C4, counterexample to the claim as stated: the stream's first line
parses as JSON (`42`) and does not match, the second line is the
awaited response for id 1 — yet `_send`'s read loop does not discard
the first line and return the match: `resp.get("id")` on the parsed
non-object raises `AttributeError`. -/
theorem stdio_send_discard_counterexample :
    idMatches [("jsonrpc", Json.str "2.0"), ("id", Json.num 1), ("result", Json.obj [])] 1 =
      true ∧
    readResponse 1 cexStdioStream = .error "AttributeError" ∧
    ∀ j, readResponse 1 cexStdioStream ≠ .ok j := by
  refine ⟨rfl, rfl, ?_⟩
  intro j h
  rw [show readResponse 1 cexStdioStream = Except.error "AttributeError" from rfl] at h
  exact Except.noConfusion h

/-- C4 (amended): `_send` ids are strictly increasing across a client's
requests; the read loop returns the first parsed JSON OBJECT whose id
matches, discarding every earlier empty, unparsable, or non-matching
object line (a line parsing to non-object JSON instead raises); and a
stream that ends before a match yields the structured error result
rather than raising. -/
theorem stdio_send_id_and_read_loop :
    (∀ (st : Nat) (streams : List (List StdioLine)),
        List.Pairwise (· < ·) (stdioIds st streams)) ∧
    (∀ (request_id : Int) (pre rest : List StdioLine) (fs : List (String × Json)),
        (∀ l ∈ pre, discardableLine request_id l = true) →
        idMatches fs request_id = true →
        readResponse request_id (pre ++ .parsed (.obj fs) :: rest) = .ok (.obj fs)) ∧
    (∀ (request_id : Int) (stream : List StdioLine),
        (∀ l ∈ stream, discardableLine request_id l = true) →
        readResponse request_id stream = .ok sendErrorResp) := by
  refine ⟨?_, ?_, ?_⟩
  · intro st streams
    induction streams generalizing st with
    | nil => simp [stdioIds]
    | cons s rest ih =>
      rw [stdioIds_cons]
      exact List.pairwise_cons.mpr ⟨fun i hi => stdioIds_gt rest (st + 1) i hi, ih (st + 1)⟩
  · intro request_id pre rest fs hpre hmatch
    induction pre with
    | nil => simp [readResponse, hmatch]
    | cons l pre' ih =>
      have hl : discardableLine request_id l = true := hpre l (List.mem_cons_self _ _)
      have hpre' : ∀ l' ∈ pre', discardableLine request_id l' = true :=
        fun l' h => hpre l' (List.mem_cons_of_mem _ h)
      cases l with
      | blank => simpa [readResponse] using ih hpre'
      | malformed => simpa [readResponse] using ih hpre'
      | parsed j =>
        cases j with
        | obj fs' =>
          have hno : idMatches fs' request_id = false := by
            simpa [discardableLine] using hl
          simpa [readResponse, hno] using ih hpre'
        | null => simp [discardableLine] at hl
        | bool b => simp [discardableLine] at hl
        | num n => simp [discardableLine] at hl
        | str s => simp [discardableLine] at hl
        | arr xs => simp [discardableLine] at hl
  · intro request_id stream hall
    induction stream with
    | nil => rfl
    | cons l rest ih =>
      have hl : discardableLine request_id l = true := hall l (List.mem_cons_self _ _)
      have hrest : ∀ l' ∈ rest, discardableLine request_id l' = true :=
        fun l' h => hall l' (List.mem_cons_of_mem _ h)
      cases l with
      | blank => simpa [readResponse] using ih hrest
      | malformed => simpa [readResponse] using ih hrest
      | parsed j =>
        cases j with
        | obj fs' =>
          have hno : idMatches fs' request_id = false := by
            simpa [discardableLine] using hl
          simpa [readResponse, hno] using ih hrest
        | null => simp [discardableLine] at hl
        | bool b => simp [discardableLine] at hl
        | num n => simp [discardableLine] at hl
        | str s => simp [discardableLine] at hl
        | arr xs => simp [discardableLine] at hl

/-- C4 witness: a concrete discardable prefix (blank, unparsable,
wrong-id object) before the id-1 response is skipped; an all-discardable
stream for id 2 ends in the structured error. -/
theorem stdio_send_id_and_read_loop_witness :
    (∀ l ∈ [StdioLine.blank, StdioLine.malformed,
        StdioLine.parsed (.obj [("id", Json.num 7)])], discardableLine 1 l = true) ∧
    idMatches [("id", Json.num 1)] 1 = true ∧
    readResponse 1 ([StdioLine.blank, StdioLine.malformed,
        StdioLine.parsed (.obj [("id", Json.num 7)])] ++
        .parsed (.obj [("id", Json.num 1)]) :: []) = .ok (.obj [("id", Json.num 1)]) ∧
    (∀ l ∈ [StdioLine.blank, StdioLine.malformed,
        StdioLine.parsed (.obj [("id", Json.num 7)])], discardableLine 2 l = true) ∧
    readResponse 2 [StdioLine.blank, StdioLine.malformed,
        StdioLine.parsed (.obj [("id", Json.num 7)])] = .ok sendErrorResp := by
  have hpre : ∀ l ∈ [StdioLine.blank, StdioLine.malformed,
      StdioLine.parsed (.obj [("id", Json.num 7)])], discardableLine 1 l = true := by
    decide
  have hall : ∀ l ∈ [StdioLine.blank, StdioLine.malformed,
      StdioLine.parsed (.obj [("id", Json.num 7)])], discardableLine 2 l = true := by
    decide
  have hmatch : idMatches [("id", Json.num 1)] 1 = true := by decide
  exact ⟨hpre, hmatch,
    stdio_send_id_and_read_loop.2.1 1 _ [] [("id", Json.num 1)] hpre hmatch,
    hall, stdio_send_id_and_read_loop.2.2 2 _ hall⟩

theorem httpTrace_cons (st : HttpClientState) (o : Except String HttpResponse)
    (rest : List (Except String HttpResponse)) :
    httpTrace st (o :: rest) =
      (postHeaders st :: (httpTrace (postUpdate st o) rest).1,
       (httpTrace (postUpdate st o) rest).2) := rfl

theorem postUpdate_keeps_truthy (st : HttpClientState) (o : Except String HttpResponse)
    (h : pyTruthyStrOpt st.sessionId = true) :
    pyTruthyStrOpt (postUpdate st o).sessionId = true := by
  cases o with
  | error e => exact h
  | ok r =>
    cases hr : r.sessionHeader with
    | none => simpa [postUpdate, hr] using h
    | some sid =>
      by_cases hs : sid ≠ ""
      · simp [postUpdate, hr, hs, pyTruthyStrOpt]
      · simpa [postUpdate, hr, hs] using h

theorem postHeaders_has_session (st : HttpClientState)
    (h : pyTruthyStrOpt st.sessionId = true) :
    ∃ v, dictGet (postHeaders st) "Mcp-Session-Id" = some v ∧ v ≠ "" := by
  obtain ⟨s, hs, hne⟩ : ∃ s, st.sessionId = some s ∧ s ≠ "" := by
    cases hsid : st.sessionId with
    | none => simp [pyTruthyStrOpt, hsid] at h
    | some s => exact ⟨s, rfl, by simpa [pyTruthyStrOpt, hsid] using h⟩
  refine ⟨s, ?_, hne⟩
  have hts : pyTruthyStrOpt (some s) = true := by simp [pyTruthyStrOpt, hne]
  simp [postHeaders, hs, hts, dictGet_dictSet]

theorem httpTrace_all_sessions (outcomes : List (Except String HttpResponse)) :
    ∀ (st : HttpClientState), pyTruthyStrOpt st.sessionId = true →
      ∀ hs ∈ (httpTrace st outcomes).1,
        ∃ v, dictGet hs "Mcp-Session-Id" = some v ∧ v ≠ "" := by
  induction outcomes with
  | nil =>
    intro st h hs hmem
    simp [httpTrace] at hmem
  | cons o rest ih =>
    intro st h hs hmem
    rw [httpTrace_cons] at hmem
    rcases List.mem_cons.mp hmem with hmem | hmem
    · subst hmem
      exact postHeaders_has_session st h
    · exact ih (postUpdate st o) (postUpdate_keeps_truthy st o h) hs hmem

/-- C5: the session id is sticky — once a request state is session-ful
it stays so across every outcome, a session-ful state always sends the
`Mcp-Session-Id` header with a nonempty value, and after any response
carrying a nonempty session header every subsequent request of the
trace includes the header (the client never reverts to session-less
requests). -/
theorem http_session_sticky :
    (∀ (st : HttpClientState) (o : Except String HttpResponse),
        pyTruthyStrOpt st.sessionId = true →
        pyTruthyStrOpt (postUpdate st o).sessionId = true) ∧
    (∀ st : HttpClientState, pyTruthyStrOpt st.sessionId = true →
        ∃ v, dictGet (postHeaders st) "Mcp-Session-Id" = some v ∧ v ≠ "") ∧
    (∀ (st0 : HttpClientState) (pre post : List (Except String HttpResponse))
        (r : HttpResponse) (sid : String),
        r.sessionHeader = some sid → sid ≠ "" →
        ∀ hs ∈ (httpTrace (postUpdate (httpTrace st0 pre).2 (.ok r)) post).1,
          ∃ v, dictGet hs "Mcp-Session-Id" = some v ∧ v ≠ "") := by
  refine ⟨postUpdate_keeps_truthy, postHeaders_has_session, ?_⟩
  intro st0 pre post r sid hr hsid hs hmem
  have htr : pyTruthyStrOpt (postUpdate (httpTrace st0 pre).2 (.ok r)).sessionId = true := by
    simp [postUpdate, hr, hsid, pyTruthyStrOpt]
  exact httpTrace_all_sessions post _ htr hs hmem

/-- C5 witness: one response carries `sess-1`; the two following
requests (after a failure and a header-less success) still send the
session header. -/
theorem http_session_sticky_witness :
    ((⟨some "sess-1", .null⟩ : HttpResponse).sessionHeader = some "sess-1") ∧
    ("sess-1" ≠ "") ∧
    ∀ hs ∈ (httpTrace (postUpdate (httpTrace ⟨[], none⟩ []).2 (.ok ⟨some "sess-1", .null⟩))
        [.error "boom", .ok ⟨none, .null⟩]).1,
      ∃ v, dictGet hs "Mcp-Session-Id" = some v ∧ v ≠ "" := by
  have h1 : (⟨some "sess-1", .null⟩ : HttpResponse).sessionHeader = some "sess-1" := rfl
  have h2 : "sess-1" ≠ "" := by decide
  exact ⟨h1, h2, http_session_sticky.2.2 ⟨[], none⟩ [] [.error "boom", .ok ⟨none, .null⟩]
    ⟨some "sess-1", .null⟩ "sess-1" h1 h2⟩

theorem mem_pySortedSet (x : String) (l : List String) :
    x ∈ pySortedSet l ↔ x ∈ l := by
  rw [pySortedSet, mem_pySorted, mem_pyDedup]

theorem autoDisable_delta (groups : List (String × List String)) :
    ∀ (d : List String) (r : List (String × Nat)),
      ∃ delta, groups.foldl autoDisableFold (d, r) =
        (d ++ delta.map Prod.fst, r ++ delta) := by
  induction groups with
  | nil => intro d r; exact ⟨[], by simp⟩
  | cons g rest ih =>
    intro d r
    rw [List.foldl_cons]
    by_cases h1 : g.1 ∈ d
    · have : autoDisableFold (d, r) g = (d, r) := by simp [autoDisableFold, h1]
      rw [this]
      exact ih d r
    · by_cases h2 : g.2.length > 200
      · have : autoDisableFold (d, r) g = (d ++ [g.1], r ++ [(g.1, g.2.length)]) := by
          simp [autoDisableFold, h1, h2]
        rw [this]
        obtain ⟨delta, hd⟩ := ih (d ++ [g.1]) (r ++ [(g.1, g.2.length)])
        exact ⟨(g.1, g.2.length) :: delta, by simp [hd]⟩
      · have : autoDisableFold (d, r) g = (d, r) := by simp [autoDisableFold, h1, h2]
        rw [this]
        exact ih d r

theorem autoDisable_mem (groups : List (String × List String)) (g : String)
    (members : List String) (hmem : (g, members) ∈ groups) (hlen : members.length > 200) :
    ∀ (d : List String) (r : List (String × Nat)),
      g ∈ (groups.foldl autoDisableFold (d, r)).1 := by
  induction groups with
  | nil => simp at hmem
  | cons p rest ih =>
    intro d r
    rw [List.foldl_cons]
    rcases List.mem_cons.mp hmem with hp | hp
    · -- the head is the oversized group: after this step `g` is in the set
      have hg : g ∈ (autoDisableFold (d, r) p).1 := by
        rw [← hp]
        by_cases h1 : g ∈ d
        · simp [autoDisableFold, h1]
        · simp [autoDisableFold, h1, hlen]
      obtain ⟨delta, hd⟩ := autoDisable_delta rest (autoDisableFold (d, r) p).1
        (autoDisableFold (d, r) p).2
      rw [show (autoDisableFold (d, r) p) =
          ((autoDisableFold (d, r) p).1, (autoDisableFold (d, r) p).2) from rfl, hd]
      exact List.mem_append_left _ hg
    · -- the oversized group sits in the tail
      have := ih hp (autoDisableFold (d, r) p).1 (autoDisableFold (d, r) p).2
      rw [show (autoDisableFold (d, r) p) =
          ((autoDisableFold (d, r) p).1, (autoDisableFold (d, r) p).2) from rfl]
      exact this

theorem autoDisable_reported (groups : List (String × List String)) (g : String)
    (members : List String) :
    ∀ (d : List String) (r : List (String × Nat)),
      (groups.map Prod.fst).Nodup → (g, members) ∈ groups → members.length > 200 →
      g ∉ d → (g, members.length) ∈ (groups.foldl autoDisableFold (d, r)).2 := by
  induction groups with
  | nil => intro d r _ hmem; simp at hmem
  | cons p rest ih =>
    intro d r hnd hmem hlen hgd
    rw [List.foldl_cons]
    rcases List.mem_cons.mp hmem with hp | hp
    · -- head step reports (g, members.length)
      have h1 : p.1 ∉ d := by
        rw [← hp]
        exact hgd
      have hstep : autoDisableFold (d, r) p = (d ++ [p.1], r ++ [(p.1, p.2.length)]) := by
        have : p.2.length > 200 := by rw [← hp]; exact hlen
        simp [autoDisableFold, h1, this]
      obtain ⟨delta, hd⟩ := autoDisable_delta rest (d ++ [p.1]) (r ++ [(p.1, p.2.length)])
      rw [hstep, hd]
      have : (p.1, p.2.length) = (g, members.length) := by rw [← hp]
      rw [this]
      simp
    · -- the oversized group sits in the tail; the head key differs from g
      have hkey : p.1 ≠ g := by
        intro he
        have hin : g ∈ rest.map Prod.fst := List.mem_map.mpr ⟨(g, members), hp, rfl⟩
        have := (List.nodup_cons.mp hnd).1
        rw [he] at this
        exact this hin
      have hnd' : (rest.map Prod.fst).Nodup := by
        simpa using (List.nodup_cons.mp hnd).2
      have hstep1 : (autoDisableFold (d, r) p).1 = d ∨
          (autoDisableFold (d, r) p).1 = d ++ [p.1] := by
        by_cases h1 : p.1 ∈ d
        · left; simp [autoDisableFold, h1]
        · by_cases h2 : p.2.length > 200
          · right; simp [autoDisableFold, h1, h2]
          · left; simp [autoDisableFold, h1, h2]
      have hgd' : g ∉ (autoDisableFold (d, r) p).1 := by
        rcases hstep1 with he | he <;> rw [he]
        · exact hgd
        · intro hin
          rcases List.mem_append.mp hin with hin | hin
          · exact hgd hin
          · exact hkey (List.mem_singleton.mp hin).symm
      have := ih (autoDisableFold (d, r) p).1 (autoDisableFold (d, r) p).2 hnd' hp hlen hgd'
      rw [show (autoDisableFold (d, r) p) =
          ((autoDisableFold (d, r) p).1, (autoDisableFold (d, r) p).2) from rfl]
      exact this

theorem startupTools_prefs_eq (all_tools : List ToolDef)
    (tool_map : List (String × MCPClient)) (prefs : Prefs) :
    (startupTools all_tools tool_map prefs).2.1 =
      (if (autoDisableStep («_group_tools» all_tools tool_map) prefs.disabled_groups).2.isEmpty
       then prefs
       else { prefs with
              disabled_groups := pySortedSet (autoDisableStep
                («_group_tools» all_tools tool_map) prefs.disabled_groups).1 }) := rfl

theorem startupTools_fst_eq (all_tools : List ToolDef)
    (tool_map : List (String × MCPClient)) (prefs : Prefs) :
    (startupTools all_tools tool_map prefs).1 =
      (if («_apply_filter» all_tools tool_map (startupTools all_tools tool_map prefs).2.1).length > 300
       then («_apply_filter» all_tools tool_map (startupTools all_tools tool_map prefs).2.1).take 300
       else «_apply_filter» all_tools tool_map (startupTools all_tools tool_map prefs).2.1) := rfl

theorem dictGet_const_map (l : List String) (c : MCPClient) (n : String) (h : n ∈ l) :
    dictGet (l.map (fun x => (x, c))) n = some c := by
  induction l with
  | nil => simp at h
  | cons x xs ih =>
    by_cases hx : x = n
    · simp [dictGet, hx]
    · rcases List.mem_cons.mp h with h' | h'
      · exact absurd h'.symm hx
      · simp [dictGet, hx, ih h']

theorem cexToolNames_length : cexToolNames.length = 201 := by
  simp [cexToolNames]

theorem cex_tool_group (n : String) (hn : n ∈ cexToolNames) :
    «_tool_group» n cexToolMap = "A" := by
  have hdg : dictGet cexToolMap n = some clientUpper :=
    dictGet_const_map cexToolNames clientUpper n hn
  have hlen : n.data.length = 2 := by
    rcases List.mem_map.mp hn with ⟨i, _, rfl⟩
    rfl
  have h1 : n ≠ "local_shell" := by
    intro h; rw [h] at hlen; exact absurd hlen (by decide)
  have h2 : n ≠ "manage_tools" := by
    intro h; rw [h] at hlen; exact absurd hlen (by decide)
  simp only [«_tool_group», h1, h2, hdg, clientUpper, or_self, if_false]
  simp
  intro hA
  exact absurd hA (by decide)

theorem group_tools_single_aux (tool_map : List (String × MCPClient)) (g : String)
    (ts : List ToolDef) (h : ∀ t ∈ ts, «_tool_group» t.fname tool_map = g) :
    ∀ ns, ts.foldl (groupFold tool_map) [(g, ns)] = [(g, ns ++ ts.map ToolDef.fname)] := by
  induction ts with
  | nil => intro ns; simp
  | cons t rest ih =>
    intro ns
    have hg : «_tool_group» t.fname tool_map = g := h t (List.mem_cons_self _ _)
    have hstep : groupFold tool_map [(g, ns)] t = [(g, ns ++ [t.fname])] := by
      simp [groupFold, hg]
    rw [List.foldl_cons, hstep, ih (fun t' ht' => h t' (List.mem_cons_of_mem _ ht'))]
    simp

theorem group_tools_single (tool_map : List (String × MCPClient)) (g : String)
    (ts : List ToolDef) (hne : ts ≠ [])
    (h : ∀ t ∈ ts, «_tool_group» t.fname tool_map = g) :
    «_group_tools» ts tool_map = [(g, ts.map ToolDef.fname)] := by
  cases ts with
  | nil => exact absurd rfl hne
  | cons t0 rest =>
    rw [«_group_tools», List.foldl_cons]
    have h0 : groupFold tool_map [] t0 = [(g, [t0.fname])] := by
      simp [groupFold, h t0 (List.mem_cons_self _ _)]
    rw [h0, group_tools_single_aux tool_map g rest
      (fun t' ht' => h t' (List.mem_cons_of_mem _ ht')) [t0.fname]]
    simp

theorem cex_map_fnames : cexAllTools.map ToolDef.fname = cexToolNames := by
  simp [cexAllTools, List.map_map]
  rfl

theorem cex_group_tools :
    «_group_tools» cexAllTools cexToolMap = [("A", cexToolNames)] := by
  have hall : ∀ t ∈ cexAllTools, «_tool_group» t.fname cexToolMap = "A" := by
    intro t ht
    rcases List.mem_map.mp ht with ⟨n, hn, rfl⟩
    exact cex_tool_group n hn
  have hne : cexAllTools ≠ [] := by
    intro h
    have := congrArg List.length (cex_map_fnames.symm.trans (congrArg (List.map ToolDef.fname) h))
    rw [cexToolNames_length] at this
    simp at this
  rw [group_tools_single cexToolMap "A" cexAllTools hne hall, cex_map_fnames]

theorem cex_auto_disable :
    autoDisableStep [("A", cexToolNames)] [] = (["A"], [("A", 201)]) := by
  have hlen : cexToolNames.length = 201 := cexToolNames_length
  simp [autoDisableStep, autoDisableFold, hlen]

/-- C7, counterexample to the claim as stated: a client configured with
the uppercase server name `A` owning 201 tools is auto-disabled at
startup (disabled set becomes `["A"]`), yet the explicit `/enable A` of
exactly that group removes nothing: the command lowercases its argument
to `a`, misses `"A"`, and saves no preferences (`none`). -/
theorem auto_disable_enable_counterexample :
    (startupTools cexAllTools cexToolMap ⟨[], []⟩).2.1 = ⟨["A"], []⟩ ∧
    enableCommand "A" ⟨["A"], []⟩ = none ∧
    pyLower "A" = "a" := by
  refine ⟨?_, by decide, by decide⟩
  rw [startupTools_prefs_eq]
  rw [show (⟨[], []⟩ : Prefs).disabled_groups = [] from rfl, cex_group_tools,
    cex_auto_disable]
  decide

/-- C7 (amended): at startup every group with more than 200 members
ends up in the persisted disabled set (and, when the group keys are
distinct and it was not already disabled, it is reported with its
count); an active list still longer than 300 after filtering is
silently truncated to its first 300 entries; and an explicit enable of
a disabled group whose label is its own lowercasing (the command
lowercases its argument) removes exactly that group. -/
theorem startup_ceilings_and_enable :
    (∀ (all_tools : List ToolDef) (tool_map : List (String × MCPClient)) (prefs : Prefs)
        (g : String) (members : List String),
        (g, members) ∈ «_group_tools» all_tools tool_map → members.length > 200 →
        g ∈ (startupTools all_tools tool_map prefs).2.1.disabled_groups) ∧
    (∀ (all_tools : List ToolDef) (tool_map : List (String × MCPClient)) (prefs : Prefs)
        (g : String) (members : List String),
        ((«_group_tools» all_tools tool_map).map Prod.fst).Nodup →
        (g, members) ∈ «_group_tools» all_tools tool_map → members.length > 200 →
        g ∉ prefs.disabled_groups →
        (g, members.length) ∈ (startupTools all_tools tool_map prefs).2.2) ∧
    (∀ (all_tools : List ToolDef) (tool_map : List (String × MCPClient)) (prefs : Prefs),
        («_apply_filter» all_tools tool_map
          (startupTools all_tools tool_map prefs).2.1).length > 300 →
        (startupTools all_tools tool_map prefs).1 =
          («_apply_filter» all_tools tool_map
            (startupTools all_tools tool_map prefs).2.1).take 300) ∧
    (∀ (prefs : Prefs) (g : String), pyLower g = g → g ≠ "all" →
        g ∈ prefs.disabled_groups →
        enableCommand g prefs = some { prefs with
          disabled_groups := pySortedSet (prefs.disabled_groups.filter (· ≠ g)) } ∧
        ∀ h', h' ∈ pySortedSet (prefs.disabled_groups.filter (· ≠ g)) ↔
          (h' ∈ prefs.disabled_groups ∧ h' ≠ g)) := by
  refine ⟨?_, ?_, ?_, ?_⟩
  · intro all_tools tool_map prefs g members hmem hlen
    have hD := autoDisable_mem («_group_tools» all_tools tool_map) g members hmem hlen
      prefs.disabled_groups []
    rw [startupTools_prefs_eq]
    by_cases hrep : (autoDisableStep («_group_tools» all_tools tool_map)
        prefs.disabled_groups).2.isEmpty = true
    · -- no report: the auto-disable pass added nothing, so g was already disabled
      rw [if_pos hrep]
      obtain ⟨delta, hd⟩ := autoDisable_delta («_group_tools» all_tools tool_map)
        prefs.disabled_groups []
      have hdelta : delta = [] := by
        have h2 := congrArg Prod.snd hd
        simp only [autoDisableStep] at hrep
        rw [h2] at hrep
        simpa using hrep
      have h1 := congrArg Prod.fst hd
      simp only [autoDisableStep] at hD
      rw [h1, hdelta] at hD
      simpa using hD
    · rw [if_neg hrep]
      show g ∈ pySortedSet (autoDisableStep («_group_tools» all_tools tool_map)
        prefs.disabled_groups).1
      rw [mem_pySortedSet]
      exact hD
  · intro all_tools tool_map prefs g members hnd hmem hlen hgd
    have := autoDisable_reported («_group_tools» all_tools tool_map) g members
      prefs.disabled_groups [] hnd hmem hlen hgd
    exact this
  · intro all_tools tool_map prefs h
    rw [startupTools_fst_eq]
    simp [h]
  · intro prefs g hlow hall hmem
    constructor
    · simp [enableCommand, hlow, hall, hmem]
    · intro h'
      rw [mem_pySortedSet]
      simp [List.mem_filter]

set_option maxRecDepth 40000 in
/-- C7 witness: the 201-member group `A` is in the persisted disabled
set and reported with its count; 302 active tools in two small groups
are truncated to 300; a lowercase disabled group `gh` is removed by an
explicit enable. -/
theorem startup_ceilings_and_enable_witness :
    ("A", cexToolNames) ∈ «_group_tools» cexAllTools cexToolMap ∧
    cexToolNames.length > 200 ∧
    "A" ∈ (startupTools cexAllTools cexToolMap ⟨[], []⟩).2.1.disabled_groups ∧
    ("A", 201) ∈ (startupTools cexAllTools cexToolMap ⟨[], []⟩).2.2 ∧
    («_apply_filter» cexManyTools cexManyMap
      (startupTools cexManyTools cexManyMap ⟨[], []⟩).2.1).length > 300 ∧
    (startupTools cexManyTools cexManyMap ⟨[], []⟩).1 =
      («_apply_filter» cexManyTools cexManyMap
        (startupTools cexManyTools cexManyMap ⟨[], []⟩).2.1).take 300 ∧
    enableCommand "gh" ⟨["gh"], []⟩ =
      some ⟨pySortedSet (["gh"].filter (· ≠ "gh")), []⟩ := by
  have hmem : ("A", cexToolNames) ∈ «_group_tools» cexAllTools cexToolMap := by
    rw [cex_group_tools]
    exact List.mem_singleton.mpr rfl
  have hlen : cexToolNames.length > 200 := by rw [cexToolNames_length]; decide
  have hnd : ((«_group_tools» cexAllTools cexToolMap).map Prod.fst).Nodup := by
    rw [cex_group_tools]
    decide
  have hnotd : "A" ∉ (⟨[], []⟩ : Prefs).disabled_groups := by decide
  have hbig : («_apply_filter» cexManyTools cexManyMap
      (startupTools cexManyTools cexManyMap ⟨[], []⟩).2.1).length > 300 := by decide
  have hrep := startup_ceilings_and_enable.2.1 cexAllTools cexToolMap ⟨[], []⟩ "A"
    cexToolNames hnd hmem hlen hnotd
  have hrep201 : ("A", 201) ∈ (startupTools cexAllTools cexToolMap ⟨[], []⟩).2.2 := by
    rw [← cexToolNames_length]
    exact hrep
  refine ⟨hmem, hlen, ?_, hrep201, hbig, ?_, ?_⟩
  · exact startup_ceilings_and_enable.1 cexAllTools cexToolMap ⟨[], []⟩ "A"
      cexToolNames hmem hlen
  · exact startup_ceilings_and_enable.2.2.1 cexManyTools cexManyMap ⟨[], []⟩ hbig
  · exact (startup_ceilings_and_enable.2.2.2 ⟨["gh"], []⟩ "gh" (by decide) (by decide)
      (by decide)).1

theorem keyword_weight_sum (nl dl : String) (keywords : List String) :
    (keywords.map (fun kw => 2 * (if strContains nl kw then (1 : ℕ) else 0) +
      (if strContains dl kw then (1 : ℕ) else 0))).sum =
    2 * (keywords.filter (fun kw => strContains nl kw)).length +
      (keywords.filter (fun kw => strContains dl kw)).length := by
  induction keywords with
  | nil => simp
  | cons kw rest ih =>
    rw [List.map_cons, List.sum_cons, ih]
    by_cases hn : strContains nl kw = true <;> by_cases hd : strContains dl kw = true <;>
      simp [List.filter_cons, hn, hd] <;> omega

theorem toolScore_eq_sum (keywords : List String) (nl dl : String) (dis : Bool) :
    toolScore keywords nl dl dis =
      ((keywords.map (fun kw => 2 * (if strContains nl kw then (1 : ℕ) else 0) +
          (if strContains dl kw then (1 : ℕ) else 0))).sum : ℚ) /
        (keywords.length : ℚ) + (if dis then 1 else 0) := by
  rw [toolScore, keyword_weight_sum]
  push_cast
  ring

theorem mem_insertDesc {α : Type} (key : α → ℚ) (x y : α) (l : List α) :
    x ∈ insertDesc key y l ↔ x = y ∨ x ∈ l := by
  induction l with
  | nil => simp [insertDesc]
  | cons z zs ih =>
    by_cases h : key y ≤ key z
    · rw [insertDesc, if_pos h]
      simp only [List.mem_cons, ih]
      tauto
    · rw [insertDesc, if_neg h]
      simp only [List.mem_cons]

theorem pairwise_insertDesc {α : Type} (key : α → ℚ) (x : α) (l : List α)
    (h : List.Pairwise (fun a b => key b ≤ key a) l) :
    List.Pairwise (fun a b => key b ≤ key a) (insertDesc key x l) := by
  induction l with
  | nil => simp [insertDesc]
  | cons y ys ih =>
    rcases List.pairwise_cons.mp h with ⟨hy, hys⟩
    by_cases hk : key x ≤ key y
    · rw [insertDesc, if_pos hk]
      refine List.pairwise_cons.mpr ⟨?_, ih hys⟩
      intro z hz
      rcases (mem_insertDesc key z x ys).mp hz with hz | hz
      · rw [hz]; exact hk
      · exact hy z hz
    · rw [insertDesc, if_neg hk]
      refine List.pairwise_cons.mpr ⟨?_, h⟩
      intro z hz
      rcases List.mem_cons.mp hz with hz | hz
      · rw [hz]; exact le_of_not_le hk
      · exact le_trans (hy z hz) (le_of_not_le hk)

theorem pairwise_sortDescBy {α : Type} (key : α → ℚ) (l : List α) :
    List.Pairwise (fun a b => key b ≤ key a) (sortDescBy key l) := by
  have haux : ∀ (l : List α) (acc : List α),
      List.Pairwise (fun a b => key b ≤ key a) acc →
      List.Pairwise (fun a b => key b ≤ key a)
        (l.foldl (fun acc x => insertDesc key x acc) acc) := by
    intro l
    induction l with
    | nil => intro acc h; simpa using h
    | cons x xs ih =>
      intro acc h
      rw [List.foldl_cons]
      exact ih _ (pairwise_insertDesc key x acc h)
  exact haux l [] (by simp)

/-- C9: in the introspection search, (i) a tool whose lowered name
contains a query keyword scores at least as high as an otherwise
identical tool that matches that keyword only in its description;
(ii) any tool in a currently disabled group scores strictly higher than
the identical match in an enabled group; (iii) the returned match list
is ranked by non-increasing score and capped at 20 entries. -/
theorem search_ranking_properties :
    (∀ (keywords : List String) (kw nl1 dl1 nl2 dl2 : String) (dis : Bool),
        kw ∈ keywords →
        strContains nl1 kw = true →
        strContains nl2 kw = false →
        strContains dl2 kw = true →
        (∀ kw2 ∈ keywords, kw2 ≠ kw →
          (strContains nl1 kw2 = strContains nl2 kw2 ∧
           strContains dl1 kw2 = strContains dl2 kw2)) →
        toolScore keywords nl2 dl2 dis ≤ toolScore keywords nl1 dl1 dis) ∧
    (∀ (keywords : List String) (nl dl : String),
        toolScore keywords nl dl false < toolScore keywords nl dl true) ∧
    (∀ (all_tools : List ToolDef) (tool_map : List (String × MCPClient))
        (disabled : List String) (q : String),
        List.Pairwise (fun a b => b.score ≤ a.score)
          ((searchAction all_tools tool_map disabled q).getD []) ∧
        ((searchAction all_tools tool_map disabled q).getD []).length ≤ 20) := by
  refine ⟨?_, ?_, ?_⟩
  · intro keywords kw nl1 dl1 nl2 dl2 dis hkw h1n h2n h2d hothers
    rw [toolScore_eq_sum, toolScore_eq_sum]
    have hkpos : (0 : ℚ) < (keywords.length : ℚ) := by
      have : 0 < keywords.length := List.length_pos.mpr (List.ne_nil_of_mem hkw)
      exact_mod_cast this
    have hsum : (keywords.map (fun kw2 => 2 * (if strContains nl2 kw2 then (1 : ℕ) else 0) +
          (if strContains dl2 kw2 then (1 : ℕ) else 0))).sum ≤
        (keywords.map (fun kw2 => 2 * (if strContains nl1 kw2 then (1 : ℕ) else 0) +
          (if strContains dl1 kw2 then (1 : ℕ) else 0))).sum := by
      apply List.sum_le_sum
      intro kw2 hmem
      by_cases he : kw2 = kw
      · subst he
        simp only [h1n, h2n, h2d, if_pos, if_false]
        by_cases hd1 : strContains dl1 kw2 <;> simp [hd1]
      · rcases hothers kw2 hmem he with ⟨hn, hd⟩
        rw [hn, hd]
    have hcast : ((keywords.map (fun kw2 => 2 * (if strContains nl2 kw2 then (1 : ℕ) else 0) +
          (if strContains dl2 kw2 then (1 : ℕ) else 0))).sum : ℚ) ≤
        ((keywords.map (fun kw2 => 2 * (if strContains nl1 kw2 then (1 : ℕ) else 0) +
          (if strContains dl1 kw2 then (1 : ℕ) else 0))).sum : ℚ) := by
      exact_mod_cast hsum
    have hdiv := (div_le_div_iff_of_pos_right hkpos).mpr hcast
    exact add_le_add_right hdiv _
  · intro keywords nl dl
    rw [toolScore, toolScore]
    simp only [if_pos, if_false, Bool.false_eq_true]
    linarith
  · intro all_tools tool_map disabled q
    rw [searchAction]
    by_cases hq : pyLower q = ""
    · simp [hq]
    · rw [if_neg hq]
      simp only [Option.getD_some]
      constructor
      · exact List.Pairwise.sublist (List.take_sublist _ _)
          (pairwise_sortDescBy SearchHit.score _)
      · exact List.length_take_le _ _

/-- C9 witness: with query keyword `repo`, the name match
`github_repo` scores at least the description-only match, and a
disabled-group copy of a match scores strictly higher. -/
theorem search_ranking_properties_witness :
    ("repo" ∈ ["repo"]) ∧
    strContains "github_repo" "repo" = true ∧
    strContains "github_x" "repo" = false ∧
    strContains "list repo" "repo" = true ∧
    toolScore ["repo"] "github_x" "list repo" false ≤
      toolScore ["repo"] "github_repo" "" false ∧
    toolScore ["repo"] "github_repo" "" false <
      toolScore ["repo"] "github_repo" "" true := by
  have hkw : "repo" ∈ ["repo"] := by decide
  have h1n : strContains "github_repo" "repo" = true := by decide
  have h2n : strContains "github_x" "repo" = false := by decide
  have h2d : strContains "list repo" "repo" = true := by decide
  have hothers : ∀ kw2 ∈ ["repo"], kw2 ≠ "repo" →
      (strContains "github_repo" kw2 = strContains "github_x" kw2 ∧
       strContains "" kw2 = strContains "list repo" kw2) := by decide
  exact ⟨hkw, h1n, h2n, h2d,
    search_ranking_properties.1 ["repo"] "repo" "github_repo" "" "github_x" "list repo"
      false hkw h1n h2n h2d hothers,
    search_ranking_properties.2.1 ["repo"] "github_repo" ""⟩

end Conch
